import Mathlib

/-!
Shallow embedding of `src/index.js` of the figma-screens-extractor tool.

The program walks a design-document tree, selects `FRAME` nodes (optionally
filtered by exact bounding-box dimensions), derives filesystem-safe unique
file names, and orchestrates per-record download attempts.  Dimensions are
modelled as exact rationals (the JS code compares them with `===`, exact
equality, no tolerance).  The filesystem is modelled as the finite list of
occupied paths; the remote API and the byte transfer are modelled as oracle
functions supplied in an environment record.
-/

/-- A bounding box as used by the dimension filter: width and height in pixels
(`node.absoluteBoundingBox` in the JS source). -/
structure BoundingBox where
  width : ℚ
  height : ℚ
deriving DecidableEq

/-- The fields of one document node other than its children
(`node.id`, `node.name`, `node.type`, `node.absoluteBoundingBox` and the
passthrough metadata copied by `extractScreenNodes`). -/
structure NodeData where
  id : String
  name : String
  type : String
  absoluteBoundingBox : Option BoundingBox
  backgroundColor : Option String
  effects : Option String
  constraints : Option String
deriving DecidableEq

/-- A document node: its own data plus an ordered list of children. -/
inductive Node : Type where
  | mk : NodeData → List Node → Node

/-- The data stored at the root of a node. -/
def Node.data : Node → NodeData
  | .mk d _ => d

/-- The children of a node. -/
def Node.children : Node → List Node
  | .mk _ cs => cs

/-- The record pushed onto `screenNodes` for a matched node in
`extractScreenNodes` (lines 80–89 of `src/index.js`). -/
structure ScreenData where
  id : String
  name : String
  type : String
  absoluteBoundingBox : Option BoundingBox
  backgroundColor : Option String
  effects : Option String
  constraints : Option String
deriving DecidableEq

/-- The projection building `screenData` from a node (lines 80–89). -/
def screenDataOf (d : NodeData) : ScreenData :=
  ⟨d.id, d.name, d.type, d.absoluteBoundingBox, d.backgroundColor, d.effects,
    d.constraints⟩

/-- The per-node selection logic of `traverse` (lines 79–101 of
`src/index.js`): a `FRAME` node is pushed when no dimension filter is set, or
when it has a bounding box whose width and height both equal the target;
with a filter set, a node without a bounding box is skipped. -/
def selectNode (target : Option BoundingBox) (d : NodeData) : List ScreenData :=
  if d.type = "FRAME" then
    match target, d.absoluteBoundingBox with
    | some t, some bb =>
      if bb.width = t.width ∧ bb.height = t.height then [screenDataOf d] else []
    | some _, none => []
    | none, _ => [screenDataOf d]
  else []

/-- The traversal of `extractScreenNodes` (lines 75–109): each node is tested
first, then its children are traversed in order, then the remaining siblings
(depth-first pre-order; descending happens whether or not the node matched). -/
def traverseList (target : Option BoundingBox) : List Node → List ScreenData
  | [] => []
  | Node.mk d cs :: rest =>
    selectNode target d ++ (traverseList target cs ++ traverseList target rest)

/-- `extractScreenNodes` (lines 75–109 of `src/index.js`), with the
`CONFIG.targetDimensions` global made an explicit parameter. -/
def extractScreenNodes (target : Option BoundingBox) (nodes : List Node) :
    List ScreenData :=
  traverseList target nodes

/-- The depth-first pre-order enumeration of every node of a forest: each node
precedes its descendants, descendants precede later siblings. -/
def allNodesList : List Node → List Node
  | [] => []
  | Node.mk d cs :: rest =>
    Node.mk d cs :: (allNodesList cs ++ allNodesList rest)

/-- The dimension condition of the claim: no filter, or a bounding box whose
width and height both equal the configured target. -/
def dimMatch : Option BoundingBox → NodeData → Prop
  | none, _ => True
  | some t, d =>
    ∃ bb, d.absoluteBoundingBox = some bb ∧ bb.width = t.width ∧
      bb.height = t.height

theorem traverseList_eq_flatMap (t : Option BoundingBox) :
    ∀ nodes : List Node,
      traverseList t nodes =
        (allNodesList nodes).flatMap (fun n => selectNode t n.data)
  | [] => by simp [traverseList, allNodesList]
  | Node.mk d cs :: rest => by
    have h1 := traverseList_eq_flatMap t cs
    have h2 := traverseList_eq_flatMap t rest
    simp [traverseList, allNodesList, h1, h2, Node.data]

theorem selectNode_complete (t : Option BoundingBox) (d : NodeData)
    (hframe : d.type = "FRAME") (hdim : dimMatch t d) :
    screenDataOf d ∈ selectNode t d := by
  cases t with
  | none => simp [selectNode, hframe]
  | some tgt =>
    obtain ⟨bb, hbb, hw, hh⟩ := hdim
    simp [selectNode, hframe, hbb, hw, hh]

theorem selectNode_sound (t : Option BoundingBox) (d : NodeData)
    (r : ScreenData) (hr : r ∈ selectNode t d) :
    r = screenDataOf d ∧ d.type = "FRAME" ∧ dimMatch t d := by
  by_cases hframe : d.type = "FRAME"
  · cases t with
    | none => simp_all [selectNode, dimMatch]
    | some tgt =>
      cases hbb : d.absoluteBoundingBox with
      | none => simp_all [selectNode]
      | some bb =>
        simp only [selectNode, hframe, if_true, hbb] at hr
        by_cases hwh : bb.width = tgt.width ∧ bb.height = tgt.height
        · simp only [hwh, and_self, if_true, List.mem_singleton] at hr
          exact ⟨hr, hframe, bb, hbb, hwh.1, hwh.2⟩
        · simp [hwh] at hr
  · simp [selectNode, hframe] at hr

theorem extract_sound_aux (t : Option BoundingBox) (nodes : List Node)
    (r : ScreenData) (hr : r ∈ extractScreenNodes t nodes) :
    ∃ n, n ∈ allNodesList nodes ∧ r = screenDataOf n.data ∧
      n.data.type = "FRAME" ∧ dimMatch t n.data := by
  rw [extractScreenNodes, traverseList_eq_flatMap] at hr
  obtain ⟨n, hn, hsel⟩ := List.mem_flatMap.mp hr
  obtain ⟨heq, hframe, hdim⟩ := selectNode_sound t n.data r hsel
  exact ⟨n, hn, heq, hframe, hdim⟩

/-- C1: Tree Filter completeness: every node at any depth whose type tag is
"FRAME" and which meets the (optional) exact-dimension condition contributes
its record to the output of `extractScreenNodes`; in particular this holds for
a matching frame nested inside another matching frame. -/
theorem tree_filter_complete (target : Option BoundingBox) (nodes : List Node)
    (n : Node) (hmem : n ∈ allNodesList nodes)
    (hframe : n.data.type = "FRAME") (hdim : dimMatch target n.data) :
    screenDataOf n.data ∈ extractScreenNodes target nodes := by
  rw [extractScreenNodes, traverseList_eq_flatMap]
  exact List.mem_flatMap.mpr
    ⟨n, hmem, selectNode_complete target n.data hframe hdim⟩

/-- C2: Tree Filter soundness: every record returned by `extractScreenNodes`
has type tag "FRAME", satisfies the configured dimension condition (when a
target is configured its bounding box is present with exactly the target
width and height), and is the projection of a node of the input tree — no
other node ever appears in the output. -/
theorem tree_filter_sound (target : Option BoundingBox) (nodes : List Node)
    (r : ScreenData) (hr : r ∈ extractScreenNodes target nodes) :
    r.type = "FRAME" ∧
      (∀ t, target = some t →
        ∃ bb, r.absoluteBoundingBox = some bb ∧ bb.width = t.width ∧
          bb.height = t.height) ∧
      ∃ n, n ∈ allNodesList nodes ∧ r = screenDataOf n.data := by
  obtain ⟨n, hn, heq, hframe, hdim⟩ := extract_sound_aux target nodes r hr
  subst heq
  refine ⟨hframe, ?_, n, hn, rfl⟩
  intro t ht
  subst ht
  obtain ⟨bb, hbb, hw, hh⟩ := hdim
  exact ⟨bb, hbb, hw, hh⟩

/-- C3: when a dimension filter is configured, a node without a bounding box
is excluded from the Tree Filter output, even if its type tag is "FRAME". -/
theorem no_bbox_excluded (t : BoundingBox) (nodes : List Node) (n : Node)
    (hnone : n.data.absoluteBoundingBox = none) :
    screenDataOf n.data ∉ extractScreenNodes (some t) nodes := by
  intro hmem
  obtain ⟨m, _, heq, _, hdim⟩ := extract_sound_aux (some t) nodes _ hmem
  obtain ⟨bb, hbb, _, _⟩ := hdim
  have : (screenDataOf m.data).absoluteBoundingBox = some bb := hbb
  rw [← heq] at this
  simp [screenDataOf, hnone] at this

/-- C4: the output sequence of `extractScreenNodes` is exactly the
depth-first pre-order (document order) enumeration of the tree's nodes with
the per-node selection applied in place — no sorting or reordering. -/
theorem extract_in_document_order (target : Option BoundingBox)
    (nodes : List Node) :
    extractScreenNodes target nodes =
      (allNodesList nodes).flatMap (fun n => selectNode target n.data) :=
  traverseList_eq_flatMap target nodes

theorem tree_filter_complete_witness :
    screenDataOf ⟨"1:1", "Home", "FRAME", some ⟨375, 812⟩, none, none, none⟩ ∈
      extractScreenNodes (some ⟨375, 812⟩)
        [Node.mk ⟨"1:1", "Home", "FRAME", some ⟨375, 812⟩, none, none, none⟩
          [Node.mk ⟨"1:2", "Card", "FRAME", some ⟨375, 812⟩, none, none, none⟩ []]] ∧
    screenDataOf ⟨"1:2", "Card", "FRAME", some ⟨375, 812⟩, none, none, none⟩ ∈
      extractScreenNodes (some ⟨375, 812⟩)
        [Node.mk ⟨"1:1", "Home", "FRAME", some ⟨375, 812⟩, none, none, none⟩
          [Node.mk ⟨"1:2", "Card", "FRAME", some ⟨375, 812⟩, none, none, none⟩ []]] :=
  ⟨tree_filter_complete (some ⟨375, 812⟩)
      [Node.mk ⟨"1:1", "Home", "FRAME", some ⟨375, 812⟩, none, none, none⟩
        [Node.mk ⟨"1:2", "Card", "FRAME", some ⟨375, 812⟩, none, none, none⟩ []]]
      (Node.mk ⟨"1:1", "Home", "FRAME", some ⟨375, 812⟩, none, none, none⟩
        [Node.mk ⟨"1:2", "Card", "FRAME", some ⟨375, 812⟩, none, none, none⟩ []])
      (by simp [allNodesList]) rfl ⟨⟨375, 812⟩, rfl, rfl, rfl⟩,
   tree_filter_complete (some ⟨375, 812⟩)
      [Node.mk ⟨"1:1", "Home", "FRAME", some ⟨375, 812⟩, none, none, none⟩
        [Node.mk ⟨"1:2", "Card", "FRAME", some ⟨375, 812⟩, none, none, none⟩ []]]
      (Node.mk ⟨"1:2", "Card", "FRAME", some ⟨375, 812⟩, none, none, none⟩ [])
      (by simp [allNodesList]) rfl ⟨⟨375, 812⟩, rfl, rfl, rfl⟩⟩

theorem tree_filter_sound_witness :
    (screenDataOf ⟨"2:1", "Login", "FRAME", none, none, none, none⟩).type = "FRAME" ∧
      (∀ t, (none : Option BoundingBox) = some t →
        ∃ bb, (screenDataOf ⟨"2:1", "Login", "FRAME", none, none, none, none⟩).absoluteBoundingBox
            = some bb ∧ bb.width = t.width ∧ bb.height = t.height) ∧
      ∃ n, n ∈ allNodesList [Node.mk ⟨"2:1", "Login", "FRAME", none, none, none, none⟩ []] ∧
        screenDataOf ⟨"2:1", "Login", "FRAME", none, none, none, none⟩ = screenDataOf n.data :=
  tree_filter_sound none _ _ (by simp [extractScreenNodes, traverseList, selectNode])

theorem no_bbox_excluded_witness :
    screenDataOf ⟨"3:1", "Ghost", "FRAME", none, none, none, none⟩ ∉
      extractScreenNodes (some ⟨375, 812⟩)
        [Node.mk ⟨"3:1", "Ghost", "FRAME", none, none, none, none⟩ []] :=
  no_bbox_excluded ⟨375, 812⟩ _
    (Node.mk ⟨"3:1", "Ghost", "FRAME", none, none, none, none⟩ []) rfl

/-- The character class of the regex `/[/\\?%*:|"<>]/g` in `sanitizeFileName`
(line 132 of `src/index.js`). -/
def invalidChars : List Char :=
  ['/', '\\', '?', '%', '*', ':', '|', '"', '<', '>']

/-- The replacement `name.replace(...)` applies to a single character:
a reserved character becomes a hyphen, anything else is kept. -/
def sanitizeChar (c : Char) : Char := if c ∈ invalidChars then '-' else c

/-- `sanitizeFileName` (lines 131–133 of `src/index.js`): replace every
occurrence of a reserved character with `-`; a global single-character-class
regex replace is exactly a character-wise map over the string. -/
def sanitizeFileName (name : String) : String := ⟨name.data.map sanitizeChar⟩

theorem sanitizeChar_idem (c : Char) :
    sanitizeChar (sanitizeChar c) = sanitizeChar c := by
  by_cases h : c ∈ invalidChars
  · simp [sanitizeChar, h]
  · simp [sanitizeChar, h]

/-- C5: `sanitizeFileName` preserves length, maps the character at every
position to `-` exactly when it is one of `/ \ ? % * : | " < >` and leaves it
unchanged otherwise, and in particular sends `"A/B:C"` to `"A-B-C"`. -/
theorem sanitize_pointwise (s : String) (i : Nat) :
    (sanitizeFileName s).length = s.length ∧
    (sanitizeFileName s).data[i]? =
      (s.data[i]?).map (fun c => if c ∈ invalidChars then '-' else c) ∧
    sanitizeFileName "A/B:C" = "A-B-C" := by
  refine ⟨?_, ?_, by decide⟩
  · show (s.data.map sanitizeChar).length = s.data.length
    simp
  · show (s.data.map sanitizeChar)[i]? =
      (s.data[i]?).map (fun c => if c ∈ invalidChars then '-' else c)
    rw [List.getElem?_map]
    rfl

/-- C6: `sanitizeFileName` is deterministic (equal inputs give equal
outputs), is the identity on every name containing no reserved character,
and is idempotent on every string. -/
theorem sanitize_idempotent_det (s t u v : String)
    (h : ∀ c ∈ s.data, c ∉ invalidChars) (huv : u = v) :
    sanitizeFileName s = s ∧
    sanitizeFileName (sanitizeFileName t) = sanitizeFileName t ∧
    sanitizeFileName u = sanitizeFileName v := by
  refine ⟨?_, ?_, congrArg sanitizeFileName huv⟩
  · have hmap : s.data.map sanitizeChar = s.data := by
      conv_rhs => rw [← List.map_id s.data]
      exact List.map_congr_left fun c hc => by simp [sanitizeChar, h c hc]
    cases s with
    | mk l => simpa [sanitizeFileName] using congrArg String.mk hmap
  · cases t with
    | mk l =>
      simp only [sanitizeFileName, List.map_map]
      exact congrArg String.mk (List.map_congr_left fun c _ => sanitizeChar_idem c)

theorem sanitize_idempotent_det_witness :
    sanitizeFileName "Login" = "Login" ∧
    sanitizeFileName (sanitizeFileName "A/B:C") = sanitizeFileName "A/B:C" ∧
    sanitizeFileName "x" = sanitizeFileName "x" :=
  sanitize_idempotent_det "Login" "A/B:C" "x" "x" (by decide) rfl

/-- The decimal digit characters of JS number-to-string conversion
(code point 48 is `0`). -/
def digitChar (d : Nat) : Char := Char.ofNat (48 + d)

/-- Decimal rendering of a natural number, most significant digit first:
the semantics of interpolating the loop counter in the template literal
`` `${basePath}-${counter}.${extension}` `` of `getUniqueFilePath`. -/
def natToString (n : Nat) : String :=
  if n = 0 then "0" else ⟨(Nat.digits 10 n).reverse.map digitChar⟩

/-- The k-th path tried by `getUniqueFilePath` (lines 136–144 of
`src/index.js`): `<base>.<ext>` first, then `<base>-1.<ext>`,
`<base>-2.<ext>`, … -/
def candidate (basePath extension : String) : Nat → String
  | 0 => basePath ++ "." ++ extension
  | Nat.succ k => basePath ++ "-" ++ natToString (k + 1) ++ "." ++ extension

theorem digitChar_inj_lt :
    ∀ d1 < 10, ∀ d2 < 10, digitChar d1 = digitChar d2 → d1 = d2 := by
  decide

theorem map_digitChar_inj (l1 : List Nat) :
    ∀ l2 : List Nat, (∀ d ∈ l1, d < 10) → (∀ d ∈ l2, d < 10) →
      l1.map digitChar = l2.map digitChar → l1 = l2 := by
  induction l1 with
  | nil =>
    intro l2 _ _ h
    cases l2 with
    | nil => rfl
    | cons d t => simp at h
  | cons d1 t1 ih =>
    intro l2 hb1 hb2 h
    cases l2 with
    | nil => simp at h
    | cons d2 t2 =>
      simp only [List.map_cons, List.cons.injEq] at h
      have hd := digitChar_inj_lt d1 (hb1 d1 (by simp)) d2 (hb2 d2 (by simp)) h.1
      have ht := ih t2 (fun d hmem => hb1 d (by simp [hmem]))
        (fun d hmem => hb2 d (by simp [hmem])) h.2
      rw [hd, ht]

theorem digits_bounds (n : Nat) : ∀ d ∈ (Nat.digits 10 n).reverse, d < 10 := by
  intro d hd
  rw [List.mem_reverse] at hd
  exact Nat.digits_lt_base (by norm_num) hd

theorem natToString_inj {m n : Nat} (h : natToString m = natToString n) :
    m = n := by
  have hdata := congrArg String.data h
  by_cases hm : m = 0 <;> by_cases hn : n = 0
  · rw [hm, hn]
  · exfalso
    simp only [natToString, hm, hn, if_true, if_false] at hdata
    have h0 : ['0'] = (Nat.digits 10 n).reverse.map digitChar := hdata
    have : ([0] : List Nat).map digitChar = (Nat.digits 10 n).reverse.map digitChar := by
      rw [← h0]; rfl
    have hrev := map_digitChar_inj [0] ((Nat.digits 10 n).reverse)
      (by intro d hd; simp at hd; omega) (digits_bounds n) this
    have hdig : Nat.digits 10 n = [0] := by
      rw [← List.reverse_inj]
      simpa using hrev.symm
    have := Nat.ofDigits_digits 10 n
    rw [hdig] at this
    simp [Nat.ofDigits] at this
    exact hn this.symm
  · exfalso
    simp only [natToString, hm, hn, if_true, if_false] at hdata
    have h0 : (Nat.digits 10 m).reverse.map digitChar = ['0'] := hdata
    have : (Nat.digits 10 m).reverse.map digitChar = ([0] : List Nat).map digitChar := by
      rw [h0]; rfl
    have hrev := map_digitChar_inj ((Nat.digits 10 m).reverse) [0]
      (digits_bounds m) (by intro d hd; simp at hd; omega) this
    have hdig : Nat.digits 10 m = [0] := by
      rw [← List.reverse_inj]
      simpa using hrev
    have := Nat.ofDigits_digits 10 m
    rw [hdig] at this
    simp [Nat.ofDigits] at this
    exact hm this.symm
  · simp only [natToString, hm, hn, if_false] at hdata
    have hrev := map_digitChar_inj ((Nat.digits 10 m).reverse)
      ((Nat.digits 10 n).reverse) (digits_bounds m) (digits_bounds n) hdata
    rw [List.reverse_inj] at hrev
    have h1 := Nat.ofDigits_digits 10 m
    have h2 := Nat.ofDigits_digits 10 n
    rw [← h1, ← h2, hrev]

theorem natToString_ne_nil (n : Nat) : (natToString n).data ≠ [] := by
  by_cases h : n = 0
  · simp [natToString, h]
  · simp only [natToString, h, if_false]
    simp [Nat.digits_ne_nil_iff_ne_zero, h]

theorem candidate_zero_data (b e : String) :
    (candidate b e 0).data = b.data ++ '.' :: e.data := by
  simp [candidate, String.data_append]

theorem candidate_succ_data (b e : String) (k : Nat) :
    (candidate b e (k + 1)).data =
      b.data ++ '-' :: ((natToString (k + 1)).data ++ '.' :: e.data) := by
  simp [candidate, String.data_append]

theorem candidate_inj (b e : String) : Function.Injective (candidate b e) := by
  intro j k h
  have hdata := congrArg String.data h
  match j, k with
  | 0, 0 => rfl
  | 0, Nat.succ k =>
    exfalso
    rw [candidate_zero_data, candidate_succ_data] at hdata
    have hlen := congrArg List.length hdata
    have hpos : 0 < (natToString (k + 1)).data.length :=
      List.length_pos.mpr (natToString_ne_nil (k + 1))
    simp [List.length_append] at hlen
    omega
  | Nat.succ j, 0 =>
    exfalso
    rw [candidate_succ_data, candidate_zero_data] at hdata
    have hlen := congrArg List.length hdata
    have hpos : 0 < (natToString (j + 1)).data.length :=
      List.length_pos.mpr (natToString_ne_nil (j + 1))
    simp [List.length_append] at hlen
    omega
  | Nat.succ j, Nat.succ k =>
    rw [candidate_succ_data, candidate_succ_data] at hdata
    have h1 := List.append_cancel_left hdata
    simp only [List.cons.injEq, true_and] at h1
    have h2 := List.append_cancel_right h1
    have h3 : natToString (j + 1) = natToString (k + 1) := String.ext h2
    have := natToString_inj h3
    omega

theorem exists_free (fs : List String) (b e : String) (k : Nat) :
    ∃ d, candidate b e (k + d) ∉ fs := by
  by_contra hall
  push_neg at hall
  have hinj : Function.Injective fun d => candidate b e (k + d) := by
    intro d1 d2 hd
    have := candidate_inj b e hd
    omega
  have hnodup : ((List.range (fs.length + 1)).map
      (fun d => candidate b e (k + d))).Nodup :=
    (List.nodup_range _).map hinj
  have hsub : ((List.range (fs.length + 1)).map
      (fun d => candidate b e (k + d))) ⊆ fs := by
    intro x hx
    obtain ⟨d, _, rfl⟩ := List.mem_map.mp hx
    exact hall d
  have hle := (hnodup.subperm hsub).length_le
  simp at hle

/-- The distance from index `k` to the first free candidate at or after `k`
(well defined because only finitely many paths exist). -/
def freeGap (fs : List String) (b e : String) (k : Nat) : Nat :=
  Nat.find (exists_free fs b e k)

theorem freeGap_decrease (fs : List String) (b e : String) (k : Nat)
    (h : candidate b e k ∈ fs) : freeGap fs b e (k + 1) < freeGap fs b e k := by
  have hspec := Nat.find_spec (exists_free fs b e k)
  have hpos : 0 < freeGap fs b e k := by
    rcases Nat.eq_zero_or_pos (freeGap fs b e k) with h0 | h0
    · exfalso
      have : candidate b e (k + 0) ∉ fs := by
        rw [← h0]; exact hspec
      simp at this
      exact this h
    · exact h0
  have hfree : candidate b e ((k + 1) + (freeGap fs b e k - 1)) ∉ fs := by
    have : (k + 1) + (freeGap fs b e k - 1) = k + freeGap fs b e k := by omega
    rw [this]
    exact hspec
  have hgap : freeGap fs b e (k + 1) ≤ freeGap fs b e k - 1 := by
    show Nat.find (exists_free fs b e (k + 1)) ≤ freeGap fs b e k - 1
    exact Nat.find_le hfree
  omega

/-- The `while (fs.existsSync(filePath))` loop of `getUniqueFilePath`
(lines 139–142): keep advancing the counter while the current candidate path
is occupied.  The filesystem is the finite list `fs` of occupied paths;
termination rests on the candidates being pairwise distinct. -/
def uniqueLoop (fs : List String) (basePath extension : String) (k : Nat) :
    String :=
  if h : candidate basePath extension k ∈ fs then
    uniqueLoop fs basePath extension (k + 1)
  else candidate basePath extension k
termination_by freeGap fs basePath extension k
decreasing_by exact freeGap_decrease fs basePath extension k h

/-- `getUniqueFilePath` (lines 136–144 of `src/index.js`), with the
filesystem made an explicit finite list of occupied paths. -/
def getUniqueFilePath (fs : List String) (basePath extension : String) :
    String :=
  uniqueLoop fs basePath extension 0

theorem uniqueLoop_mem (fs : List String) (b e : String) (k : Nat)
    (h : candidate b e k ∈ fs) : uniqueLoop fs b e k = uniqueLoop fs b e (k + 1) := by
  rw [uniqueLoop, dif_pos h]

theorem uniqueLoop_not_mem (fs : List String) (b e : String) (k : Nat)
    (h : candidate b e k ∉ fs) : uniqueLoop fs b e k = candidate b e k := by
  rw [uniqueLoop, dif_neg h]

theorem uniqueLoop_spec (fs : List String) (b e : String) (k : Nat) :
    ∃ d, uniqueLoop fs b e k = candidate b e (k + d) ∧
      candidate b e (k + d) ∉ fs ∧ ∀ j, j < d → candidate b e (k + j) ∈ fs := by
  by_cases h : candidate b e k ∈ fs
  · obtain ⟨d, hres, hfree, hall⟩ := uniqueLoop_spec fs b e (k + 1)
    refine ⟨d + 1, ?_, ?_, ?_⟩
    · rw [uniqueLoop_mem fs b e k h, hres]
      congr 1
      omega
    · have : k + (d + 1) = (k + 1) + d := by omega
      rw [this]
      exact hfree
    · intro j hj
      rcases Nat.eq_zero_or_pos j with h0 | h0
      · rw [h0]
        simpa using h
      · have : k + j = (k + 1) + (j - 1) := by omega
        rw [this]
        exact hall (j - 1) (by omega)
  · exact ⟨0, by rw [uniqueLoop_not_mem fs b e k h]; norm_num, by simpa using h,
      by omega⟩
termination_by freeGap fs b e k
decreasing_by exact freeGap_decrease fs b e k h

theorem natToString_one : natToString 1 = "1" := by
  have h : Nat.digits 10 1 = [1] := by norm_num
  simp only [natToString, one_ne_zero, if_false, h]
  rfl

theorem natToString_two : natToString 2 = "2" := by
  have h : Nat.digits 10 2 = [2] := by norm_num
  simp only [natToString, OfNat.ofNat_ne_zero, if_false, h]
  rfl

theorem candidate_login_one :
    candidate "screen-Login" "png" 1 = "screen-Login-1.png" := by
  show "screen-Login" ++ "-" ++ natToString 1 ++ "." ++ "png" =
    "screen-Login-1.png"
  rw [natToString_one]
  decide

theorem candidate_login_two :
    candidate "screen-Login" "png" 2 = "screen-Login-2.png" := by
  show "screen-Login" ++ "-" ++ natToString 2 ++ "." ++ "png" =
    "screen-Login-2.png"
  rw [natToString_two]
  decide

/-- C7: `getUniqueFilePath` returns `<base>.<ext>` when that path is free and
otherwise `<base>-k.<ext>` for the smallest `k ≥ 1` that is free (the returned
path is the candidate of the smallest free index, every smaller index being
occupied); in particular with `screen-Login.png` occupied it returns
`screen-Login-1.png`, and with `screen-Login-1.png` also occupied it returns
`screen-Login-2.png`. -/
theorem getUniqueFilePath_spec (fs : List String) (b e : String) :
    (∃ k, getUniqueFilePath fs b e = candidate b e k ∧ candidate b e k ∉ fs ∧
      ∀ j, j < k → candidate b e j ∈ fs) ∧
    getUniqueFilePath ["screen-Login.png"] "screen-Login" "png" =
      "screen-Login-1.png" ∧
    getUniqueFilePath ["screen-Login.png", "screen-Login-1.png"] "screen-Login"
      "png" = "screen-Login-2.png" := by
  refine ⟨?_, ?_, ?_⟩
  · obtain ⟨d, hres, hfree, hall⟩ := uniqueLoop_spec fs b e 0
    exact ⟨d, by simpa using hres, by simpa using hfree,
      fun j hj => by simpa using hall j hj⟩
  · show uniqueLoop ["screen-Login.png"] "screen-Login" "png" 0 =
      "screen-Login-1.png"
    rw [uniqueLoop_mem _ _ _ _ (by decide)]
    rw [uniqueLoop_not_mem]
    · exact candidate_login_one
    · rw [candidate_login_one]
      decide
  · show uniqueLoop ["screen-Login.png", "screen-Login-1.png"] "screen-Login"
      "png" 0 = "screen-Login-2.png"
    rw [uniqueLoop_mem _ _ _ _ (by decide)]
    rw [uniqueLoop_mem]
    · rw [uniqueLoop_not_mem]
      · exact candidate_login_two
      · rw [candidate_login_two]
        decide
    · rw [candidate_login_one]
      decide

/-- C10: the unique-path search terminates for every finite set of occupied
paths (`getUniqueFilePath` is a total function of the model) and its result is
a path not in that set. -/
theorem getUniqueFilePath_fresh (fs : List String) (b e : String) :
    getUniqueFilePath fs b e ∉ fs := by
  obtain ⟨d, hres, hfree, _⟩ := uniqueLoop_spec fs b e 0
  show uniqueLoop fs b e 0 ∉ fs
  rw [hres]
  exact hfree

/-- The external collaborators of the export loop: the render-URL resolver
(`getImageUrl`, already "soft-failed" to an `Option` exactly as the JS
function catches errors and returns `null`), the byte retrieval
(`axios.get` inside `downloadImage`) and the file write (`fs.writeFileSync`),
the last two fallible with an error message. -/
structure IOEnv where
  getUrl : String → String → Option String
  fetch : String → Except String String
  write : String → String → Except String Unit

/-- `CONFIG` of `src/index.js` (lines 34–49): output directory, ordered
format list, include-dimensions flag, inter-call delay and the optional
exact-dimension filter. -/
structure Config where
  outputDir : String
  imageFormats : List String
  includeDimensions : Bool
  apiDelay : Nat
  targetDimensions : Option BoundingBox

/-- The observable result of one `downloadImage` call: the returned Boolean,
the URLs retrieval was attempted on, the files written, and the console
lines. -/
structure DownloadOutcome where
  success : Bool
  fetchCalls : List String
  writtenFiles : List String
  log : List String
deriving DecidableEq

/-- `downloadImage` (lines 114–128 of `src/index.js`): an absent URL is
reported and refused without any retrieval; a retrieval or write error is
caught, logged with the target path, and turned into `false`; otherwise the
bytes are written to the path and the result is `true`. -/
def downloadImage (env : IOEnv) (url : Option String) (filePath : String) :
    DownloadOutcome :=
  match url with
  | none =>
    ⟨false, [], [], ["Skipping " ++ filePath ++ ": Invalid or empty URL"]⟩
  | some u =>
    match env.fetch u with
    | .error msg =>
      ⟨false, [u], [], ["Error downloading " ++ filePath ++ ": " ++ msg]⟩
    | .ok bytes =>
      match env.write filePath bytes with
      | .error msg =>
        ⟨false, [u], [], ["Error downloading " ++ filePath ++ ": " ++ msg]⟩
      | .ok _ => ⟨true, [u], [filePath], ["Downloaded: " ++ filePath]⟩

/-- The file name computed for a record in the export loop (lines 213–216):
`screen-<sanitized name>`, with `-<width>x<height>` appended when
`includeDimensions` is set and the record has a bounding box. -/
def fileNameFor (cfg : Config) (r : ScreenData) : String :=
  let base := "screen-" ++ sanitizeFileName r.name
  match cfg.includeDimensions, r.absoluteBoundingBox with
  | true, some bb =>
    base ++ "-" ++ toString bb.width ++ "x" ++ toString bb.height
  | _, _ => base

/-- The inner format loop of `main` (lines 209–229): for each format in
order, resolve the render URL; when absent, move on to the next format; when
present, resolve a unique path and attempt the download, stopping at the
first success.  Returns the `downloadedSuccessfully` flag, the outcomes of
the `downloadImage` invocations made for this record, and the filesystem
after the attempts. -/
def tryFormats (env : IOEnv) (cfg : Config) (r : ScreenData)
    (fs : List String) : List String → Bool × List DownloadOutcome × List String
  | [] => (false, [], fs)
  | fmt :: rest =>
    match env.getUrl r.id fmt with
    | some url =>
      let filePath :=
        getUniqueFilePath fs (cfg.outputDir ++ "/" ++ fileNameFor cfg r) fmt
      let out := downloadImage env (some url) filePath
      if out.success then (true, [out], fs ++ out.writtenFiles)
      else
        let res := tryFormats env cfg r (fs ++ out.writtenFiles) rest
        (res.1, out :: res.2.1, res.2.2)
    | none => tryFormats env cfg r fs rest

/-- The per-record export loop of `main` (lines 197–237): records are
processed strictly in sequence; each yields its success flag, and the
filesystem state is threaded from one record to the next. -/
def runExport (env : IOEnv) (cfg : Config) (fs : List String) :
    List ScreenData → List (ScreenData × Bool) × List String
  | [] => ([], fs)
  | r :: rs =>
    let step := tryFormats env cfg r fs cfg.imageFormats
    let rest := runExport env cfg step.2.2 rs
    ((r, step.1) :: rest.1, rest.2)

theorem tryFormats_none (env : IOEnv) (cfg : Config) (r : ScreenData)
    (fs : List String) :
    ∀ fmts : List String, (∀ fmt ∈ fmts, env.getUrl r.id fmt = none) →
      tryFormats env cfg r fs fmts = (false, [], fs)
  | [], _ => rfl
  | fmt :: rest, h => by
    have hfmt : env.getUrl r.id fmt = none := h fmt (by simp)
    have hrest := tryFormats_none env cfg r fs rest
      (fun f hf => h f (by simp [hf]))
    simp [tryFormats, hfmt, hrest]

/-- C8: when the render-URL resolver yields no URL for every configured
format for a record, `downloadImage` is never invoked for that record (its
outcome list is empty), the record is reported as failed (`false`), the
filesystem is untouched, and every subsequent record is processed exactly as
it would have been. -/
theorem no_url_no_fetch (env : IOEnv) (cfg : Config) (r : ScreenData)
    (fs : List String) (rs : List ScreenData)
    (hnone : ∀ fmt ∈ cfg.imageFormats, env.getUrl r.id fmt = none) :
    tryFormats env cfg r fs cfg.imageFormats = (false, [], fs) ∧
    runExport env cfg fs (r :: rs) =
      ((r, false) :: (runExport env cfg fs rs).1,
        (runExport env cfg fs rs).2) := by
  have h1 := tryFormats_none env cfg r fs cfg.imageFormats hnone
  refine ⟨h1, ?_⟩
  simp [runExport, h1]

/-- C9: `downloadImage` always returns a plain Boolean outcome and never
propagates an error: with an absent URL it returns `false` without attempting
any retrieval or write; when the retrieval fails, or the retrieval succeeds
and the file write fails, the error is caught, logged together with the
target path, and the result is `false`. -/
theorem downloadImage_spec (env : IOEnv) (url : Option String)
    (filePath : String) :
    (url = none → downloadImage env url filePath =
      ⟨false, [], [], ["Skipping " ++ filePath ++ ": Invalid or empty URL"]⟩) ∧
    (∀ u msg, url = some u → env.fetch u = .error msg →
      downloadImage env url filePath =
        ⟨false, [u], [], ["Error downloading " ++ filePath ++ ": " ++ msg]⟩) ∧
    (∀ u bytes msg, url = some u → env.fetch u = .ok bytes →
      env.write filePath bytes = .error msg →
      downloadImage env url filePath =
        ⟨false, [u], [], ["Error downloading " ++ filePath ++ ": " ++ msg]⟩) := by
  refine ⟨?_, ?_, ?_⟩
  · intro h
    subst h
    rfl
  · intro u msg h hf
    subst h
    simp [downloadImage, hf]
  · intro u bytes msg h hf hw
    subst h
    simp [downloadImage, hf, hw]

theorem no_url_no_fetch_witness :
    tryFormats ⟨fun _ _ => none, fun u => Except.ok u, fun _ _ => Except.ok ()⟩
        ⟨"./exported-projects/planteria", ["png"], false, 200, none⟩
        ⟨"9:1", "Login", "FRAME", none, none, none, none⟩ [] ["png"] =
      (false, [], []) ∧
    runExport ⟨fun _ _ => none, fun u => Except.ok u, fun _ _ => Except.ok ()⟩
        ⟨"./exported-projects/planteria", ["png"], false, 200, none⟩ []
        [⟨"9:1", "Login", "FRAME", none, none, none, none⟩,
          ⟨"9:2", "Home", "FRAME", none, none, none, none⟩] =
      ((⟨"9:1", "Login", "FRAME", none, none, none, none⟩, false) ::
        (runExport ⟨fun _ _ => none, fun u => Except.ok u, fun _ _ => Except.ok ()⟩
          ⟨"./exported-projects/planteria", ["png"], false, 200, none⟩ []
          [⟨"9:2", "Home", "FRAME", none, none, none, none⟩]).1,
        (runExport ⟨fun _ _ => none, fun u => Except.ok u, fun _ _ => Except.ok ()⟩
          ⟨"./exported-projects/planteria", ["png"], false, 200, none⟩ []
          [⟨"9:2", "Home", "FRAME", none, none, none, none⟩]).2) :=
  no_url_no_fetch ⟨fun _ _ => none, fun u => Except.ok u, fun _ _ => Except.ok ()⟩
    ⟨"./exported-projects/planteria", ["png"], false, 200, none⟩
    ⟨"9:1", "Login", "FRAME", none, none, none, none⟩ []
    [⟨"9:2", "Home", "FRAME", none, none, none, none⟩]
    (fun _ _ => rfl)

theorem downloadImage_spec_witness :
    downloadImage
        ⟨fun _ _ => none, fun _ => Except.error "network down", fun _ _ => Except.ok ()⟩
        none "out/a.png" =
      ⟨false, [], [], ["Skipping out/a.png: Invalid or empty URL"]⟩ ∧
    downloadImage
        ⟨fun _ _ => none, fun _ => Except.error "network down", fun _ _ => Except.ok ()⟩
        (some "http://u") "out/a.png" =
      ⟨false, ["http://u"], [], ["Error downloading out/a.png: network down"]⟩ ∧
    downloadImage
        ⟨fun _ _ => none, fun _ => Except.ok "bytes", fun _ _ => Except.error "disk full"⟩
        (some "http://u") "out/b.png" =
      ⟨false, ["http://u"], [], ["Error downloading out/b.png: disk full"]⟩ :=
  ⟨(downloadImage_spec
      ⟨fun _ _ => none, fun _ => Except.error "network down", fun _ _ => Except.ok ()⟩
      none "out/a.png").1 rfl,
   (downloadImage_spec
      ⟨fun _ _ => none, fun _ => Except.error "network down", fun _ _ => Except.ok ()⟩
      (some "http://u") "out/a.png").2.1 "http://u" "network down" rfl rfl,
   (downloadImage_spec
      ⟨fun _ _ => none, fun _ => Except.ok "bytes", fun _ _ => Except.error "disk full"⟩
      (some "http://u") "out/b.png").2.2 "http://u" "bytes" "disk full" rfl rfl rfl⟩
